import Mathlib

/-!
Verification of the bedrock-bank detection core of `src/river/bedrock_banks.py`
(repository `river-network-twin`).

The embedding models the analysis pipeline of `detect_bedrock_banks`:
grouping of elevation-sampled points into per-transect profiles with an
identifier fallback chain and NODATA filtering (`_analyze_transects_for_bedrock`,
lines 191-226), anchor (river-point) selection by minimum distance to the river
geometry with a midpoint fallback (lines 228-241), the per-side outward scan
with height / slope / stability criteria (`_find_bedrock_on_side`, lines
313-355), and the empty-result behaviour of `detect_bedrock_banks`
(lines 116-122).

Numeric values (elevations, distances, thresholds) are modelled as rationals;
the one transcendental computation, `math.degrees(math.atan(dz / point_spacing))
>= slope_threshold`, is modelled exactly over the reals by `slopeCriterion`,
and the classifier takes the Boolean slope gate as an explicit function
`slopeTest` of the elevation change `dz`, related to `slopeCriterion` by an
agreement hypothesis in the theorems.  External geometry-engine queries
(planar distance to the river geometry, `lineLocatePoint`) are abstract
function fields of `RiverGeom`.
-/

namespace BedrockBanks

/-- NODATA sentinel for raster elevation samples (line 208: `elevation == -9999`). -/
def NODATA : ℚ := -9999

/-- A raw feature of the sampled-points layer, as read in the grouping loop
(lines 191-218): optional identifying attributes `TR_ID`, `TR_SEGMENT`, `fid`,
the always-present internal `feature.id()`, the point position, the optional
sampled elevation `elev_1`, and the along-transect `distance` attribute. -/
structure Feature where
  tr_id : Option ℤ
  tr_segment : Option ℤ
  fid : Option ℤ
  feature_id : ℤ
  px : ℚ
  py : ℚ
  elevation : Option ℚ
  distance : ℚ
deriving Repr, DecidableEq

/-- A per-profile sample record, mirroring the dict appended at lines 211-218. -/
structure Sample where
  px : ℚ
  py : ℚ
  elevation : ℚ
  distance : ℚ
  profile_id : ℤ
deriving Repr, DecidableEq

/-- A bedrock-bank point, mirroring the dict returned at lines 346-353. -/
structure BankPoint where
  px : ℚ
  py : ℚ
  elevation : ℚ
  height_diff : ℚ
  side : String
  profile_id : ℤ
  distance_along : ℚ
deriving Repr, DecidableEq

/-! ## The per-side scan (`_find_bedrock_on_side`, lines 313-355) -/

/-- Height criterion (lines 315-319): pass iff not `height_diff < height_threshold`. -/
def heightB (elevs : List ℚ) (riverElevation heightThreshold : ℚ) (i : ℕ) : Bool :=
  decide (heightThreshold ≤ elevs.getD i 0 - riverElevation)

/-- Slope gate (lines 321-328): skipped at `i = 0`; otherwise the Boolean slope
test is applied to the elevation change `points[i] - points[i-1]`. -/
def slopeB (slopeTest : ℚ → Bool) (elevs : List ℚ) (i : ℕ) : Bool :=
  if i = 0 then true else slopeTest (elevs.getD i 0 - elevs.getD (i - 1) 0)

/-- Stability loop (lines 330-342): `for j in range(1, min_consecutive)`,
failing when `i + j >= len(points)` or when the height criterion fails at
`i + j`. -/
def stableFrom (elevs : List ℚ) (riverElevation heightThreshold : ℚ) (i : ℕ) :
    ℕ → ℕ → Bool
  | j, mc =>
    if j < mc then
      if elevs.length ≤ i + j then false
      else if elevs.getD (i + j) 0 - riverElevation < heightThreshold then false
      else stableFrom elevs riverElevation heightThreshold i (j + 1) mc
    else true
termination_by j mc => mc - j

/-- The full candidate test at index `i`, in the order the code checks it:
height, then slope, then stability. -/
def candB (slopeTest : ℚ → Bool) (elevs : List ℚ) (re ht : ℚ) (mc i : ℕ) : Bool :=
  heightB elevs re ht i &&
    (slopeB slopeTest elevs i && stableFrom elevs re ht i 1 mc)

/-- The scan loop `for i in range(len(points) - min_consecutive + 1)`
(line 313), returning the first accepted index. -/
def scanFrom (slopeTest : ℚ → Bool) (elevs : List ℚ) (re ht : ℚ) (mc : ℕ) :
    ℕ → ℕ → Option ℕ
  | i, n =>
    if i < n then
      if candB slopeTest elevs re ht mc i then some i
      else scanFrom slopeTest elevs re ht mc (i + 1) n
    else none
termination_by i n => n - i

/-- Index of the first accepted candidate of `_find_bedrock_on_side`; the
Python range bound `len(points) - min_consecutive + 1` is the truncated
natural `elevs.length + 1 - mc` (negative Python bounds give an empty range,
as does truncation to 0 here). -/
def findBankIdx (slopeTest : ℚ → Bool) (elevs : List ℚ) (re ht : ℚ) (mc : ℕ) :
    Option ℕ :=
  scanFrom slopeTest elevs re ht mc 0 (elevs.length + 1 - mc)

/-- Embedding of `_find_bedrock_on_side` (lines 285-355): scan the outward side samples and
return the bank-point record of the first accepted index, or `none`.  The
index-finding scan is factored out as `findBankIdx`; the returned record
carries the accepted sample's position and elevation, its height above the
river elevation, and the `side`, `profile_id`, `river_distance` arguments
verbatim (lines 346-353). -/
def findBedrockOnSide (slopeTest : ℚ → Bool) (points : List Sample)
    (riverElevation heightThreshold : ℚ) (mc : ℕ)
    (side : String) (profileId : ℤ) (riverDistance : ℚ) : Option BankPoint :=
  match findBankIdx slopeTest (points.map Sample.elevation)
      riverElevation heightThreshold mc with
  | none => none
  | some i =>
    match points[i]? with
    | none => none
    | some s =>
      some ⟨s.px, s.py, s.elevation, s.elevation - riverElevation,
        side, profileId, riverDistance⟩

/-! ## The real-valued slope criterion (line 325) -/

/-- The slope criterion computed at line 325:
`math.degrees(math.atan(elevation_change / point_spacing)) >= slope_threshold`,
over the reals. -/
def slopeCriterion (slopeThreshold pointSpacing : ℝ) (dz : ℚ) : Prop :=
  slopeThreshold ≤ Real.arctan ((dz : ℝ) / pointSpacing) * 180 / Real.pi

/-! ## Declarative criteria used to state the theorems -/

/-- Height criterion at index `i`, declaratively. -/
def heightCrit (elevs : List ℚ) (re ht : ℚ) (i : ℕ) : Prop :=
  ht ≤ elevs.getD i 0 - re

/-- Slope criterion at index `i`, declaratively: skipped entirely at `i = 0`,
otherwise the arctangent-degrees inequality on the elevation change from the
preceding sample. -/
def slopeCrit (slopeThreshold pointSpacing : ℝ) (elevs : List ℚ) (i : ℕ) : Prop :=
  i = 0 ∨ slopeCriterion slopeThreshold pointSpacing
    (elevs.getD i 0 - elevs.getD (i - 1) 0)

/-- Stability criterion at index `i`, declaratively: each of the following
`mc - 1` outward samples must exist and satisfy the height criterion. -/
def stableCrit (elevs : List ℚ) (re ht : ℚ) (mc i : ℕ) : Prop :=
  ∀ j, 1 ≤ j → j < mc → i + j < elevs.length ∧ ht ≤ elevs.getD (i + j) 0 - re

/-- Conjunction of the three acceptance criteria at index `i`. -/
def bankCrit (slopeThreshold pointSpacing : ℝ) (elevs : List ℚ) (re ht : ℚ)
    (mc i : ℕ) : Prop :=
  heightCrit elevs re ht i ∧ slopeCrit slopeThreshold pointSpacing elevs i ∧
    stableCrit elevs re ht mc i

/-! ## Characterization of the scan -/

theorem stableFrom_eq_true_iff (elevs : List ℚ) (re ht : ℚ) (i : ℕ) :
    ∀ d j mc, mc - j ≤ d →
      (stableFrom elevs re ht i j mc = true ↔
        ∀ k, j ≤ k → k < mc →
          i + k < elevs.length ∧ ht ≤ elevs.getD (i + k) 0 - re) := by
  intro d
  induction d with
  | zero =>
    intro j mc h
    rw [stableFrom]
    have hjm : ¬ j < mc := by omega
    simp only [if_neg hjm, true_iff]
    intro k hk1 hk2
    omega
  | succ d ih =>
    intro j mc h
    rw [stableFrom]
    by_cases hjm : j < mc
    · simp only [if_pos hjm]
      by_cases hlen : elevs.length ≤ i + j
      · simp only [if_pos hlen]
        constructor
        · intro hco
          exact Bool.noConfusion hco
        · intro hall
          exact absurd ((hall j le_rfl hjm).1) (by omega)
      · simp only [if_neg hlen]
        by_cases hht : elevs.getD (i + j) 0 - re < ht
        · simp only [if_pos hht]
          constructor
          · intro hco
            exact Bool.noConfusion hco
          · intro hall
            exact absurd ((hall j le_rfl hjm).2) (by exact not_le.mpr hht)
        · simp only [if_neg hht]
          rw [ih (j + 1) mc (by omega)]
          constructor
          · intro hall k hk1 hk2
            rcases Nat.eq_or_lt_of_le hk1 with heq | hlt
            · subst heq
              exact ⟨by omega, not_lt.mp hht⟩
            · exact hall k (by omega) hk2
          · intro hall k hk1 hk2
            exact hall k (by omega) hk2
    · simp only [if_neg hjm, true_iff]
      intro k hk1 hk2
      omega

theorem stableFrom_iff_stableCrit (elevs : List ℚ) (re ht : ℚ) (mc i : ℕ) :
    stableFrom elevs re ht i 1 mc = true ↔ stableCrit elevs re ht mc i :=
  stableFrom_eq_true_iff elevs re ht i (mc - 1) 1 mc (by omega)

theorem candB_eq_true_iff (st psp : ℝ) (slopeTest : ℚ → Bool)
    (hAgree : ∀ dz, slopeTest dz = true ↔ slopeCriterion st psp dz)
    (elevs : List ℚ) (re ht : ℚ) (mc i : ℕ) :
    candB slopeTest elevs re ht mc i = true ↔
      bankCrit st psp elevs re ht mc i := by
  unfold candB bankCrit
  rw [Bool.and_eq_true, Bool.and_eq_true]
  rw [stableFrom_iff_stableCrit]
  unfold heightB heightCrit slopeB slopeCrit
  rw [decide_eq_true_iff]
  by_cases h0 : i = 0
  · simp only [if_pos h0, h0]
    tauto
  · simp only [if_neg h0]
    rw [hAgree]
    tauto

theorem scanFrom_eq_some_iff (slopeTest : ℚ → Bool) (elevs : List ℚ)
    (re ht : ℚ) (mc : ℕ) :
    ∀ d i n, n - i ≤ d → ∀ r,
      (scanFrom slopeTest elevs re ht mc i n = some r ↔
        i ≤ r ∧ r < n ∧ candB slopeTest elevs re ht mc r = true ∧
          ∀ k, i ≤ k → k < r → candB slopeTest elevs re ht mc k = false) := by
  intro d
  induction d with
  | zero =>
    intro i n h r
    rw [scanFrom]
    have hin : ¬ i < n := by omega
    simp only [if_neg hin]
    constructor
    · intro hco
      exact Option.noConfusion hco
    · rintro ⟨h1, h2, -, -⟩
      omega
  | succ d ih =>
    intro i n h r
    rw [scanFrom]
    by_cases hin : i < n
    · simp only [if_pos hin]
      by_cases hc : candB slopeTest elevs re ht mc i = true
      · simp only [if_pos hc]
        constructor
        · intro hco
          injection hco with hco
          subst hco
          exact ⟨le_rfl, hin, hc, fun k hk1 hk2 => by omega⟩
        · rintro ⟨h1, -, hcr, hmin⟩
          rcases Nat.eq_or_lt_of_le h1 with heq | hlt
          · rw [heq]
          · exact absurd (hmin i le_rfl hlt) (by simp [hc])
      · simp only [if_neg hc]
        rw [ih (i + 1) n (by omega) r]
        constructor
        · rintro ⟨h1, h2, hcr, hmin⟩
          refine ⟨by omega, h2, hcr, fun k hk1 hk2 => ?_⟩
          rcases Nat.eq_or_lt_of_le hk1 with heq | hlt
          · subst heq
            exact Bool.eq_false_iff.mpr (fun hh => hc hh)
          · exact hmin k (by omega) hk2
        · rintro ⟨h1, h2, hcr, hmin⟩
          have hir : i ≠ r := by
            rintro rfl
            exact hc hcr
          exact ⟨by omega, h2, hcr, fun k hk1 hk2 => hmin k (by omega) hk2⟩
    · simp only [if_neg hin]
      constructor
      · intro hco
        exact Option.noConfusion hco
      · rintro ⟨h1, h2, -, -⟩
        omega

theorem scanFrom_eq_none_iff (slopeTest : ℚ → Bool) (elevs : List ℚ)
    (re ht : ℚ) (mc : ℕ) :
    ∀ d i n, n - i ≤ d →
      (scanFrom slopeTest elevs re ht mc i n = none ↔
        ∀ k, i ≤ k → k < n → candB slopeTest elevs re ht mc k = false) := by
  intro d
  induction d with
  | zero =>
    intro i n h
    rw [scanFrom]
    have hin : ¬ i < n := by omega
    simp only [if_neg hin, true_iff]
    intro k hk1 hk2
    omega
  | succ d ih =>
    intro i n h
    rw [scanFrom]
    by_cases hin : i < n
    · simp only [if_pos hin]
      by_cases hc : candB slopeTest elevs re ht mc i = true
      · simp only [if_pos hc]
        constructor
        · intro hco
          exact Option.noConfusion hco
        · intro hall
          exact absurd (hall i le_rfl hin) (by simp [hc])
      · simp only [if_neg hc]
        rw [ih (i + 1) n (by omega)]
        constructor
        · intro hall k hk1 hk2
          rcases Nat.eq_or_lt_of_le hk1 with heq | hlt
          · subst heq
            exact Bool.eq_false_iff.mpr (fun hh => hc hh)
          · exact hall k (by omega) hk2
        · intro hall k hk1 hk2
          exact hall k (by omega) hk2
    · simp only [if_neg hin, true_iff]
      intro k hk1 hk2
      omega

theorem findBankIdx_eq_some_iff (slopeTest : ℚ → Bool) (elevs : List ℚ)
    (re ht : ℚ) (mc r : ℕ) :
    findBankIdx slopeTest elevs re ht mc = some r ↔
      r < elevs.length + 1 - mc ∧ candB slopeTest elevs re ht mc r = true ∧
        ∀ k, k < r → candB slopeTest elevs re ht mc k = false := by
  unfold findBankIdx
  rw [scanFrom_eq_some_iff slopeTest elevs re ht mc (elevs.length + 1 - mc) 0
    (elevs.length + 1 - mc) (by omega) r]
  constructor
  · rintro ⟨_, h2, h3, h4⟩
    exact ⟨h2, h3, fun k hk => h4 k (by omega) hk⟩
  · rintro ⟨h2, h3, h4⟩
    exact ⟨by omega, h2, h3, fun k _ hk => h4 k hk⟩

theorem findBankIdx_eq_none_iff (slopeTest : ℚ → Bool) (elevs : List ℚ)
    (re ht : ℚ) (mc : ℕ) :
    findBankIdx slopeTest elevs re ht mc = none ↔
      ∀ k, k < elevs.length + 1 - mc →
        candB slopeTest elevs re ht mc k = false := by
  unfold findBankIdx
  rw [scanFrom_eq_none_iff slopeTest elevs re ht mc (elevs.length + 1 - mc) 0
    (elevs.length + 1 - mc) (by omega)]
  constructor
  · intro h k hk
    exact h k (by omega) hk
  · intro h k _ hk
    exact h k hk

/-- A candidate inside the scanned range sits at least `mc - 1` samples from
the end of the list; conversely a stable candidate is inside the range. -/
theorem stableCrit_range (elevs : List ℚ) (re ht : ℚ) (mc i : ℕ)
    (hmc : 1 ≤ mc) (hi : i < elevs.length)
    (hstable : stableCrit elevs re ht mc i) :
    i < elevs.length + 1 - mc := by
  rcases Nat.lt_or_ge 1 mc with h | h
  · have := (hstable (mc - 1) (by omega) (by omega)).1
    omega
  · omega

theorem getD_map_elevation (points : List Sample) (i : ℕ) (hi : i < points.length) :
    (points.map Sample.elevation).getD i 0 = (points.get ⟨i, hi⟩).elevation := by
  rw [List.getD_eq_getElem?_getD,
    List.getElem?_eq_getElem (by simpa using hi)]
  simp [List.getElem_map]

/-- Arctangent converted to degrees always exceeds -90. -/
theorem arctanDeg_gt_neg90 (x : ℝ) : -90 < Real.arctan x * 180 / Real.pi := by
  have hpi : 0 < Real.pi := Real.pi_pos
  have h1 : -(Real.pi / 2) < Real.arctan x := Real.neg_pi_div_two_lt_arctan x
  have h180 : (0 : ℝ) < 180 / Real.pi := by positivity
  have h2 : -(Real.pi / 2) * (180 / Real.pi) < Real.arctan x * (180 / Real.pi) :=
    mul_lt_mul_of_pos_right h1 h180
  have h3 : -(Real.pi / 2) * (180 / Real.pi) = -90 := by
    field_simp
    ring
  rw [mul_div_assoc, ← h3]
  exact h2

/-- A slope threshold of -100 degrees is passed by every elevation change. -/
theorem slopeCriterion_neg100 (dz : ℚ) : slopeCriterion (-100) 1 dz := by
  unfold slopeCriterion
  have h := arctanDeg_gt_neg90 ((dz : ℝ) / 1)
  linarith

/-- C1: on a side sub-sequence scanned outward from the anchor, the
classifier returns `some bp` exactly when `bp` is the record of the sample at
the smallest scan index satisfying the height criterion, the slope criterion
(skipped at index 0, otherwise the arctangent-degrees inequality on the
elevation change from the previous sample), and the stability criterion, with
height-above-anchor, side tag, transect id and along-river distance carried
over verbatim.  The Boolean slope gate `slopeTest` is assumed to agree with
the real arctangent criterion. -/
theorem C1_classifier_first_qualifying
    (st psp : ℝ) (slopeTest : ℚ → Bool)
    (hAgree : ∀ dz, slopeTest dz = true ↔ slopeCriterion st psp dz)
    (points : List Sample) (re ht : ℚ) (mc : ℕ) (hmc : 1 ≤ mc)
    (side : String) (pid : ℤ) (rd : ℚ) (bp : BankPoint) :
    findBedrockOnSide slopeTest points re ht mc side pid rd = some bp ↔
      ∃ i, ∃ hi : i < points.length,
        bankCrit st psp (points.map Sample.elevation) re ht mc i ∧
        (∀ k, k < i →
          ¬ bankCrit st psp (points.map Sample.elevation) re ht mc k) ∧
        bp = ⟨(points.get ⟨i, hi⟩).px, (points.get ⟨i, hi⟩).py,
          (points.get ⟨i, hi⟩).elevation, (points.get ⟨i, hi⟩).elevation - re,
          side, pid, rd⟩ := by
  unfold findBedrockOnSide
  constructor
  · intro hres
    split at hres
    · exact Option.noConfusion hres
    · rename_i i hidx
      split at hres
      · exact Option.noConfusion hres
      · rename_i s hs
        injection hres with hres
        rw [findBankIdx_eq_some_iff] at hidx
        obtain ⟨hrange, hcand, hmin⟩ := hidx
        have hlen : i < points.length := by
          simp only [List.length_map] at hrange
          omega
        have hsv : s = points.get ⟨i, hlen⟩ := by
          rw [List.getElem?_eq_getElem hlen] at hs
          injection hs with hs
          rw [← hs]
          simp [List.get_eq_getElem]
        refine ⟨i, hlen, ?_, ?_, ?_⟩
        · exact (candB_eq_true_iff st psp slopeTest hAgree _ re ht mc i).mp hcand
        · intro k hk hbc
          have hkt := (candB_eq_true_iff st psp slopeTest hAgree
            (points.map Sample.elevation) re ht mc k).mpr hbc
          rw [hmin k hk] at hkt
          exact Bool.noConfusion hkt
        · rw [← hres, hsv]
  · rintro ⟨i, hi, hcrit, hmin, hbp⟩
    have hrange : i < (points.map Sample.elevation).length + 1 - mc :=
      stableCrit_range _ re ht mc i hmc (by simpa using hi) hcrit.2.2
    have hidx : findBankIdx slopeTest (points.map Sample.elevation) re ht mc =
        some i := by
      rw [findBankIdx_eq_some_iff]
      refine ⟨hrange,
        (candB_eq_true_iff st psp slopeTest hAgree _ re ht mc i).mpr hcrit,
        fun k hk => ?_⟩
      cases hval : candB slopeTest (points.map Sample.elevation) re ht mc k with
      | false => rfl
      | true =>
        exact absurd ((candB_eq_true_iff st psp slopeTest hAgree _ re ht mc k).mp
          hval) (hmin k hk)
    rw [hidx]
    show (match points[i]? with
        | none => none
        | some s =>
          some (⟨s.px, s.py, s.elevation, s.elevation - re,
            side, pid, rd⟩ : BankPoint)) = some bp
    rw [List.getElem?_eq_getElem hi, hbp]
    simp [List.get_eq_getElem]

/-- Witness for C1: a one-sample side list, anchor elevation 0, height
threshold 3, a permissive slope threshold of -100 degrees at unit spacing,
`min_consecutive = 1`. -/
theorem C1_classifier_first_qualifying_witness :
    findBedrockOnSide (fun _ => true) [⟨0, 0, 10, 0, 1⟩] 0 3 1 "left" 1 0 =
      some ⟨0, 0, 10, 10, "left", 1, 0⟩ := by
  refine (C1_classifier_first_qualifying (-100) 1 (fun _ => true)
    (fun dz => ⟨fun _ => slopeCriterion_neg100 dz, fun _ => rfl⟩)
    [⟨0, 0, 10, 0, 1⟩] 0 3 1 le_rfl "left" 1 0
    ⟨0, 0, 10, 10, "left", 1, 0⟩).mpr ?_
  refine ⟨0, by norm_num, ⟨?_, Or.inl rfl, ?_⟩, ?_, ?_⟩
  · show (3 : ℚ) ≤ ([(⟨0, 0, 10, 0, 1⟩ : Sample)].map Sample.elevation).getD 0 0 - 0
    norm_num
  · intro j hj1 hj2
    omega
  · intro k hk
    omega
  · simp [List.get_eq_getElem]

/-- A 4.5 m elevation change over 15 m spacing passes an 8 degree slope
threshold: arctan(3/10) in degrees is at least 8. -/
theorem slopeCriterion_8_15_holds : slopeCriterion 8 15 (9 / 2) := by
  unfold slopeCriterion
  have harg : (((9 : ℚ) / 2 : ℚ) : ℝ) / 15 = 3 / 10 := by
    push_cast
    norm_num
  rw [harg]
  have hpi : 0 < Real.pi := Real.pi_pos
  set θ : ℝ := 8 * Real.pi / 180 with hθ
  have hθpos : 0 < θ := by positivity
  have hθub : θ < 0.14 := by
    have hp := Real.pi_lt_d2
    rw [hθ]
    norm_num
    linarith
  have hθlt : θ < Real.pi / 2 := by
    have := Real.pi_gt_three
    linarith
  have htan : Real.tan θ ≤ 3 / 10 := by
    rw [Real.tan_eq_sin_div_cos]
    have hcos : 1 - θ ^ 2 / 2 ≤ Real.cos θ := Real.one_sub_sq_div_two_le_cos
    have hsq : θ ^ 2 ≤ 0.14 * θ := by nlinarith
    have hcospos : 0 < Real.cos θ := by nlinarith
    rw [div_le_iff₀ hcospos]
    have hsin : Real.sin θ ≤ θ := Real.sin_le hθpos.le
    nlinarith
  have harctan : θ ≤ Real.arctan (3 / 10) := by
    have h1 : Real.arctan (Real.tan θ) = θ :=
      Real.arctan_tan (by linarith) hθlt
    rw [← h1]
    exact Real.arctan_strictMono.monotone htan
  have h2 : θ * 180 / Real.pi = 8 := by
    rw [hθ]
    field_simp
  calc (8 : ℝ) = θ * 180 / Real.pi := h2.symm
    _ ≤ Real.arctan (3 / 10) * 180 / Real.pi := by gcongr

/-- The outward side samples of the spec's end-to-end example: elevations
[101.0, 102.0, 106.5, 107.0, 107.2, 107.5] at 15 m spacing (positions and
offsets are placed on a line for concreteness; they do not enter the
classification). -/
def exampleSide : List Sample :=
  [⟨0, 15, 101, 15, 7⟩, ⟨0, 30, 102, 30, 7⟩, ⟨0, 45, 106.5, 45, 7⟩,
   ⟨0, 60, 107, 60, 7⟩, ⟨0, 75, 107.2, 75, 7⟩, ⟨0, 90, 107.5, 90, 7⟩]

/-- C2: on the end-to-end example (anchor elevation 100, outward
elevations [101, 102, 106.5, 107, 107.2, 107.5], `height_threshold = 3`,
`slope_threshold = 8` at 15 m spacing, `min_consecutive = 3`) the classifier
returns the sample at index 2 with elevation 106.5 and height-above-anchor
6.5.  The Boolean slope gate is assumed to agree with the real arctangent
criterion at the one elevation change (4.5) at which the scan consults it. -/
theorem C2_end_to_end_example (slopeTest : ℚ → Bool)
    (hAgree : slopeTest (9 / 2) = true ↔ slopeCriterion 8 15 (9 / 2)) :
    findBedrockOnSide slopeTest exampleSide 100 3 3 "right" 7 0 =
      some ⟨0, 45, 106.5, 6.5, "right", 7, 0⟩ := by
  have hTrue : slopeTest (9 / 2) = true := hAgree.mpr slopeCriterion_8_15_holds
  have helevs : exampleSide.map Sample.elevation =
      [101, 102, 213/2, 107, 536/5, 215/2] := by
    norm_num [exampleSide]
  have hc0 : candB slopeTest [101, 102, 213/2, 107, 536/5, 215/2] 100 3 3 0 =
      false := by
    unfold candB heightB
    norm_num
  have hc1 : candB slopeTest [101, 102, 213/2, 107, 536/5, 215/2] 100 3 3 1 =
      false := by
    unfold candB heightB
    norm_num
  have hc2 : candB slopeTest [101, 102, 213/2, 107, 536/5, 215/2] 100 3 3 2 =
      true := by
    unfold candB heightB slopeB
    have harg : ([101, 102, 213/2, 107, 536/5, 215/2] : List ℚ).getD 2 0 -
        ([101, 102, 213/2, 107, 536/5, 215/2] : List ℚ).getD 1 0 = 9 / 2 := by
      norm_num
    rw [harg, hTrue]
    norm_num
    rw [stableFrom]
    norm_num
    rw [stableFrom]
    norm_num
    rw [stableFrom]
    norm_num
  have hscan : findBankIdx slopeTest [101, 102, 213/2, 107, 536/5, 215/2]
      100 3 3 = some 2 := by
    unfold findBankIdx
    have hlen : ([101, 102, 213/2, 107, 536/5, 215/2] : List ℚ).length + 1 - 3 =
        4 := by
      norm_num
    rw [hlen]
    rw [scanFrom, if_pos (by norm_num : (0:ℕ) < 4), hc0,
      if_neg (by simp : ¬ (false = true))]
    show scanFrom slopeTest [101, 102, 213/2, 107, 536/5, 215/2] 100 3 3 1 4 =
      some 2
    rw [scanFrom, if_pos (by norm_num : (1:ℕ) < 4), hc1,
      if_neg (by simp : ¬ (false = true))]
    show scanFrom slopeTest [101, 102, 213/2, 107, 536/5, 215/2] 100 3 3 2 4 =
      some 2
    rw [scanFrom, if_pos (by norm_num : (2:ℕ) < 4), hc2, if_pos rfl]
  unfold findBedrockOnSide
  rw [helevs, hscan]
  simp [exampleSide]
  norm_num

/-- Witness for C2: the fully concrete instance with the always-true slope
gate, whose agreement at 4.5 follows from `slopeCriterion_8_15_holds`. -/
theorem C2_end_to_end_example_witness :
    findBedrockOnSide (fun _ => true) exampleSide 100 3 3 "right" 7 0 =
      some ⟨0, 45, 106.5, 6.5, "right", 7, 0⟩ :=
  C2_end_to_end_example (fun _ => true)
    ⟨fun _ => slopeCriterion_8_15_holds, fun _ => rfl⟩

/-- Elimination form for a successful classification: the result is built
from an accepted index of the scan. -/
theorem findBedrockOnSide_eq_some (slopeTest : ℚ → Bool) (points : List Sample)
    (re ht : ℚ) (mc : ℕ) (side : String) (pid : ℤ) (rd : ℚ) (bp : BankPoint)
    (h : findBedrockOnSide slopeTest points re ht mc side pid rd = some bp) :
    ∃ i, ∃ hi : i < points.length,
      findBankIdx slopeTest (points.map Sample.elevation) re ht mc = some i ∧
      bp = ⟨(points.get ⟨i, hi⟩).px, (points.get ⟨i, hi⟩).py,
        (points.get ⟨i, hi⟩).elevation, (points.get ⟨i, hi⟩).elevation - re,
        side, pid, rd⟩ := by
  unfold findBedrockOnSide at h
  split at h
  · exact Option.noConfusion h
  · rename_i i hidx
    split at h
    · exact Option.noConfusion h
    · rename_i s hs
      injection h with h
      have hlen : i < points.length := by
        rcases Nat.lt_or_ge i points.length with hl | hl
        · exact hl
        · rw [List.getElem?_eq_none (by omega)] at hs
          exact Option.noConfusion hs
      refine ⟨i, hlen, hidx, ?_⟩
      rw [List.getElem?_eq_getElem hlen] at hs
      injection hs with hs
      rw [← h, ← hs]
      simp [List.get_eq_getElem]

/-- C3: a candidate is accepted only if the `min_consecutive - 1` samples
following it exist and each satisfy the height criterion; consequently a side
where every sample passing the height criterion has, inside its stability
window, either no following sample or one falling back below the threshold
yields no bank point at all. -/
theorem C3_stability_rejection (slopeTest : ℚ → Bool) (points : List Sample)
    (re ht : ℚ) (mc : ℕ) (hmc : 1 ≤ mc) (side : String) (pid : ℤ) (rd : ℚ) :
    (∀ bp, findBedrockOnSide slopeTest points re ht mc side pid rd = some bp →
      ∃ i, ∃ hi : i < points.length,
        bp.elevation = (points.get ⟨i, hi⟩).elevation ∧
        ∀ j, 1 ≤ j → j < mc → i + j < points.length ∧
          ht ≤ (points.map Sample.elevation).getD (i + j) 0 - re) ∧
    ((∀ i, i < points.length →
        ht ≤ (points.map Sample.elevation).getD i 0 - re →
        ∃ j, 1 ≤ j ∧ j < mc ∧ (points.length ≤ i + j ∨
          (points.map Sample.elevation).getD (i + j) 0 - re < ht)) →
      findBedrockOnSide slopeTest points re ht mc side pid rd = none) := by
  constructor
  · intro bp hbp
    obtain ⟨i, hi, hidx, hbpv⟩ := findBedrockOnSide_eq_some slopeTest points
      re ht mc side pid rd bp hbp
    obtain ⟨hrange, hcand, hmin⟩ := (findBankIdx_eq_some_iff _ _ _ _ _ _).mp hidx
    rw [candB, Bool.and_eq_true, Bool.and_eq_true] at hcand
    have hstable := (stableFrom_iff_stableCrit _ re ht mc i).mp hcand.2.2
    refine ⟨i, hi, by rw [hbpv], fun j hj1 hj2 => ?_⟩
    have := hstable j hj1 hj2
    rw [List.length_map] at this
    exact this
  · intro hreject
    have hnone : findBankIdx slopeTest (points.map Sample.elevation) re ht mc =
        none := by
      rw [findBankIdx_eq_none_iff]
      intro k hk
      rw [List.length_map] at hk
      by_cases hh : heightB (points.map Sample.elevation) re ht k = true
      · have hkl : k < points.length := by omega
        have hhp : ht ≤ (points.map Sample.elevation).getD k 0 - re := by
          rw [heightB, decide_eq_true_iff] at hh
          exact hh
        obtain ⟨j, hj1, hj2, hjbad⟩ := hreject k hkl hhp
        have hstF : stableFrom (points.map Sample.elevation) re ht k 1 mc =
            false := by
          rw [Bool.eq_false_iff]
          intro htr
          have hstable := (stableFrom_iff_stableCrit _ re ht mc k).mp htr
          obtain ⟨hlt, hge⟩ := hstable j hj1 hj2
          rw [List.length_map] at hlt
          rcases hjbad with hb | hb
          · omega
          · exact absurd hge (by exact not_le.mpr hb)
        rw [candB, hstF]
        simp
      · have hhf : heightB (points.map Sample.elevation) re ht k = false :=
          Bool.eq_false_iff.mpr hh
        rw [candB, hhf]
        simp
    unfold findBedrockOnSide
    rw [hnone]

/-- Witness for C3: elevation rises above threshold only briefly
([0, 5, 0, 0], threshold 3, `min_consecutive = 3`); no bank is found. -/
theorem C3_stability_rejection_witness :
    findBedrockOnSide (fun _ => true)
      [⟨0, 0, 0, 0, 1⟩, ⟨0, 1, 5, 1, 1⟩, ⟨0, 2, 0, 2, 1⟩, ⟨0, 3, 0, 3, 1⟩]
      0 3 3 "left" 1 0 = none := by
  refine (C3_stability_rejection (fun _ => true)
    [⟨0, 0, 0, 0, 1⟩, ⟨0, 1, 5, 1, 1⟩, ⟨0, 2, 0, 2, 1⟩, ⟨0, 3, 0, 3, 1⟩]
    0 3 3 (by norm_num) "left" 1 0).2 ?_
  intro i hi hhi
  simp only [List.length_cons, List.length_nil] at hi
  interval_cases i
  · norm_num at hhi
  · exact ⟨1, le_rfl, by norm_num, Or.inr (by norm_num)⟩
  · norm_num at hhi
  · norm_num at hhi

/-- C10: with `min_consecutive ≥ 1` every scanned candidate index leaves
at least `min_consecutive - 1` following samples, so the bounds-failure branch
of the stability loop is unreachable (inside the scanned range the stability
test equals the test without the bounds check), the empty side list yields no
bank, and every returned bank point's index is followed by at least
`min_consecutive - 1` samples. -/
theorem C10_scan_in_bounds (slopeTest : ℚ → Bool) (points : List Sample)
    (re ht : ℚ) (mc : ℕ) (hmc : 1 ≤ mc) (side : String) (pid : ℤ) (rd : ℚ) :
    (findBedrockOnSide slopeTest [] re ht mc side pid rd = none) ∧
    (∀ i, i < (points.map Sample.elevation).length + 1 - mc →
      i + (mc - 1) < points.length ∧
      ∀ j, 1 ≤ j → j < mc → i + j < (points.map Sample.elevation).length) ∧
    (∀ i, i < (points.map Sample.elevation).length + 1 - mc →
      (stableFrom (points.map Sample.elevation) re ht i 1 mc = true ↔
        ∀ j, 1 ≤ j → j < mc →
          ht ≤ (points.map Sample.elevation).getD (i + j) 0 - re)) ∧
    (∀ bp, findBedrockOnSide slopeTest points re ht mc side pid rd = some bp →
      ∃ i, ∃ _hi : i < points.length,
        findBankIdx slopeTest (points.map Sample.elevation) re ht mc = some i ∧
        i + (mc - 1) < points.length) := by
  refine ⟨?_, ?_, ?_, ?_⟩
  · unfold findBedrockOnSide findBankIdx
    rw [scanFrom, if_neg (by
      simp only [List.map_nil, List.length_nil]
      omega)]
  · intro i hi
    rw [List.length_map] at hi
    refine ⟨by omega, fun j hj1 hj2 => ?_⟩
    rw [List.length_map]
    omega
  · intro i hi
    rw [List.length_map] at hi
    rw [stableFrom_eq_true_iff _ re ht i (mc - 1) 1 mc (by omega)]
    constructor
    · intro hall j hj1 hj2
      exact (hall j hj1 hj2).2
    · intro hall j hj1 hj2
      refine ⟨by rw [List.length_map]; omega, hall j hj1 hj2⟩
  · intro bp hbp
    obtain ⟨i, hi, hidx, -⟩ := findBedrockOnSide_eq_some slopeTest points
      re ht mc side pid rd bp hbp
    have hrange := ((findBankIdx_eq_some_iff _ _ _ _ _ _).mp hidx).1
    rw [List.length_map] at hrange
    exact ⟨i, hi, hidx, by omega⟩

/-- Witness for C10: empty side list with `min_consecutive = 3` yields no
bank. -/
theorem C10_scan_in_bounds_witness :
    findBedrockOnSide (fun _ => true) [] 0 3 3 "left" 1 0 = none :=
  (C10_scan_in_bounds (fun _ => true) [⟨0, 0, 0, 0, 1⟩] 0 3 3 (by norm_num)
    "left" 1 0).1

/-! ## Anchor selection (`_analyze_transects_for_bedrock`, lines 228-248) -/

/-- The combined river geometry, as consumed by the analysis: `truthy` models
Python's `if river_geom:` truthiness tests at lines 229 and 246, `dist` the
external `QgsGeometry.distance` query and `locate` the external
`lineLocatePoint` arc-length projection. -/
structure RiverGeom where
  truthy : Bool
  dist : ℚ × ℚ → ℚ
  locate : ℚ × ℚ → ℚ

/-- Comparison `dist < min_dist` with `none` playing the role of the initial
`float('inf')` (line 230). -/
def beatsBound (x : ℚ) : Option ℚ → Bool
  | none => true
  | some b => decide (x < b)

/-- The anchor-selection loop (lines 232-237), over the list of the profile
points' distances to the river geometry: strict improvement updates the best
index, so ties keep the first occurrence. -/
def argminLoop : List ℚ → ℕ → ℕ → Option ℚ → ℕ
  | [], _, best, _ => best
  | x :: rest, idx, best, bound =>
    if beatsBound x bound then argminLoop rest (idx + 1) idx (some x)
    else argminLoop rest (idx + 1) best bound

/-- Anchor (river point) index selection (lines 228-239): when the geometry
is truthy, the argmin loop starting from the fallback `len // 2` and an
infinite bound; otherwise the structural midpoint `len // 2`. -/
def selectRiverIdx (g : RiverGeom) (ps : List Sample) : ℕ :=
  if g.truthy then
    argminLoop (ps.map (fun p => g.dist (p.px, p.py))) 0 (ps.length / 2) none
  else ps.length / 2

/-- The along-river distance recorded for a profile (lines 245-248). -/
def riverDistanceOf (g : RiverGeom) (anchor : Sample) : ℚ :=
  if g.truthy then g.locate (anchor.px, anchor.py) else 0

theorem argminLoop_some_spec :
    ∀ (l : List ℚ) (idx best : ℕ) (b : ℚ),
      (argminLoop l idx best (some b) = best ∧
        ∀ k, k < l.length → b ≤ l.getD k 0) ∨
      (∃ j, j < l.length ∧ argminLoop l idx best (some b) = idx + j ∧
        l.getD j 0 < b ∧
        (∀ k, k < l.length → l.getD j 0 ≤ l.getD k 0) ∧
        (∀ k, k < j → l.getD j 0 < l.getD k 0)) := by
  intro l
  induction l with
  | nil =>
    intro idx best b
    left
    refine ⟨rfl, fun k hk => ?_⟩
    simp at hk
  | cons x rest ih =>
    intro idx best b
    rw [argminLoop]
    by_cases hx : x < b
    · rw [if_pos (by simp [beatsBound, hx])]
      rcases ih (idx + 1) idx x with ⟨heq, hall⟩ | ⟨j, hj, heq, hlt, hmin, hfirst⟩
      · right
        refine ⟨0, by simp, by omega, by simpa using hx, ?_, ?_⟩
        · intro k hk
          cases k with
          | zero => exact le_rfl
          | succ k =>
            simp only [List.getD_cons_zero, List.getD_cons_succ]
            exact hall k (by simpa using hk)
        · intro k hk
          omega
      · right
        refine ⟨j + 1, by simpa using hj, by omega, ?_, ?_, ?_⟩
        · simp only [List.getD_cons_succ]
          exact lt_trans hlt hx
        · intro k hk
          cases k with
          | zero =>
            simp only [List.getD_cons_succ, List.getD_cons_zero]
            exact le_of_lt hlt
          | succ k =>
            simp only [List.getD_cons_succ]
            exact hmin k (by simpa using hk)
        · intro k hk
          cases k with
          | zero =>
            simp only [List.getD_cons_succ, List.getD_cons_zero]
            exact hlt
          | succ k =>
            simp only [List.getD_cons_succ]
            exact hfirst k (by omega)
    · rw [if_neg (by simp [beatsBound, hx])]
      rcases ih (idx + 1) best b with ⟨heq, hall⟩ | ⟨j, hj, heq, hlt, hmin, hfirst⟩
      · left
        refine ⟨heq, fun k hk => ?_⟩
        cases k with
        | zero =>
          simpa using not_lt.mp hx
        | succ k =>
          simp only [List.getD_cons_succ]
          exact hall k (by simpa using hk)
      · right
        refine ⟨j + 1, by simpa using hj, by omega, ?_, ?_, ?_⟩
        · simp only [List.getD_cons_succ]
          exact hlt
        · intro k hk
          cases k with
          | zero =>
            simp only [List.getD_cons_succ, List.getD_cons_zero]
            exact le_trans (le_of_lt hlt) (not_lt.mp hx)
          | succ k =>
            simp only [List.getD_cons_succ]
            exact hmin k (by simpa using hk)
        · intro k hk
          cases k with
          | zero =>
            simp only [List.getD_cons_succ, List.getD_cons_zero]
            exact lt_of_lt_of_le hlt (not_lt.mp hx)
          | succ k =>
            simp only [List.getD_cons_succ]
            exact hfirst k (by omega)

theorem argminLoop_none_spec (x : ℚ) (rest : List ℚ) (idx best : ℕ) :
    ∃ j, j < (x :: rest).length ∧
      argminLoop (x :: rest) idx best none = idx + j ∧
      (∀ k, k < (x :: rest).length →
        (x :: rest).getD j 0 ≤ (x :: rest).getD k 0) ∧
      (∀ k, k < j → (x :: rest).getD j 0 < (x :: rest).getD k 0) := by
  rw [argminLoop, if_pos (by simp [beatsBound])]
  rcases argminLoop_some_spec rest (idx + 1) idx x with
    ⟨heq, hall⟩ | ⟨j, hj, heq, hlt, hmin, hfirst⟩
  · refine ⟨0, by simp, by omega, ?_, ?_⟩
    · intro k hk
      cases k with
      | zero => exact le_rfl
      | succ k =>
        simp only [List.getD_cons_zero, List.getD_cons_succ]
        exact hall k (by simpa using hk)
    · intro k hk
      omega
  · refine ⟨j + 1, by simpa using hj, by omega, ?_, ?_⟩
    · intro k hk
      cases k with
      | zero =>
        simp only [List.getD_cons_succ, List.getD_cons_zero]
        exact le_of_lt hlt
      | succ k =>
        simp only [List.getD_cons_succ]
        exact hmin k (by simpa using hk)
    · intro k hk
      cases k with
      | zero =>
        simp only [List.getD_cons_succ, List.getD_cons_zero]
        exact hlt
      | succ k =>
        simp only [List.getD_cons_succ]
        exact hfirst k (by omega)

/-- C4: with a truthy river geometry, the selected anchor index is in
range, its distance to the river geometry is minimal among all samples of the
profile, and every earlier index has strictly greater distance (so ties are
broken by the first occurrence in the scanned, offset-sorted order); with a
falsy geometry the anchor deterministically falls back to the structural
midpoint index `length / 2`. -/
theorem C4_anchor_min_distance (g : RiverGeom) (ps : List Sample) :
    (g.truthy = true → ps ≠ [] →
      selectRiverIdx g ps < ps.length ∧
      (∀ k, k < ps.length →
        (ps.map (fun p => g.dist (p.px, p.py))).getD (selectRiverIdx g ps) 0 ≤
          (ps.map (fun p => g.dist (p.px, p.py))).getD k 0) ∧
      (∀ k, k < selectRiverIdx g ps →
        (ps.map (fun p => g.dist (p.px, p.py))).getD (selectRiverIdx g ps) 0 <
          (ps.map (fun p => g.dist (p.px, p.py))).getD k 0)) ∧
    (g.truthy = false → selectRiverIdx g ps = ps.length / 2) := by
  constructor
  · intro htr hne
    cases ps with
    | nil => exact absurd rfl hne
    | cons p rest =>
      unfold selectRiverIdx
      rw [if_pos htr, List.map_cons]
      obtain ⟨j, hj, heq, hmin, hfirst⟩ :=
        argminLoop_none_spec (g.dist (p.px, p.py))
          (rest.map (fun p => g.dist (p.px, p.py))) 0 ((p :: rest).length / 2)
      rw [heq]
      simp only [Nat.zero_add, List.length_cons, List.length_map] at hj hmin ⊢
      refine ⟨hj, ?_, ?_⟩
      · intro k hk
        exact hmin k hk
      · intro k hk
        exact hfirst k hk
  · intro hf
    unfold selectRiverIdx
    rw [if_neg (by simp [hf])]

/-- Witness for C4: two samples at distances 5 and 3 from the river; the
anchor is the strictly closer second sample. -/
theorem C4_anchor_min_distance_witness :
    selectRiverIdx ⟨true, fun q => q.1, fun _ => 0⟩
        [⟨5, 0, 0, 0, 1⟩, ⟨3, 0, 0, 1, 1⟩] <
      ([⟨5, 0, 0, 0, 1⟩, ⟨3, 0, 0, 1, 1⟩] : List Sample).length ∧
    (∀ k, k < ([⟨5, 0, 0, 0, 1⟩, ⟨3, 0, 0, 1, 1⟩] : List Sample).length →
      (([⟨5, 0, 0, 0, 1⟩, ⟨3, 0, 0, 1, 1⟩] : List Sample).map
          (fun p => (fun q : ℚ × ℚ => q.1) (p.px, p.py))).getD
        (selectRiverIdx ⟨true, fun q => q.1, fun _ => 0⟩
          [⟨5, 0, 0, 0, 1⟩, ⟨3, 0, 0, 1, 1⟩]) 0 ≤
      (([⟨5, 0, 0, 0, 1⟩, ⟨3, 0, 0, 1, 1⟩] : List Sample).map
          (fun p => (fun q : ℚ × ℚ => q.1) (p.px, p.py))).getD k 0) ∧
    (∀ k, k < selectRiverIdx ⟨true, fun q => q.1, fun _ => 0⟩
        [⟨5, 0, 0, 0, 1⟩, ⟨3, 0, 0, 1, 1⟩] →
      (([⟨5, 0, 0, 0, 1⟩, ⟨3, 0, 0, 1, 1⟩] : List Sample).map
          (fun p => (fun q : ℚ × ℚ => q.1) (p.px, p.py))).getD
        (selectRiverIdx ⟨true, fun q => q.1, fun _ => 0⟩
          [⟨5, 0, 0, 0, 1⟩, ⟨3, 0, 0, 1, 1⟩]) 0 <
      (([⟨5, 0, 0, 0, 1⟩, ⟨3, 0, 0, 1, 1⟩] : List Sample).map
          (fun p => (fun q : ℚ × ℚ => q.1) (p.px, p.py))).getD k 0) :=
  (C4_anchor_min_distance ⟨true, fun q => q.1, fun _ => 0⟩
    [⟨5, 0, 0, 0, 1⟩, ⟨3, 0, 0, 1, 1⟩]).1 rfl (by simp)

/-! ## Grouping (`_analyze_transects_for_bedrock`, lines 189-226) -/

/-- The transect-identifier fallback chain (lines 193-199): `TR_ID`, then
`TR_SEGMENT`, then `fid`, then the internal feature id as last resort. -/
def profileIdOf (f : Feature) : ℤ :=
  match f.tr_id with
  | some v => v
  | none =>
    match f.tr_segment with
    | some v => v
    | none =>
      match f.fid with
      | some v => v
      | none => f.feature_id

/-- The sample a feature contributes: `none` when the elevation is absent or
is the NODATA sentinel (lines 204-218), otherwise the record appended to the
feature's profile. -/
def validSample (f : Feature) : Option Sample :=
  match f.elevation with
  | none => none
  | some e =>
    if e = NODATA then none
    else some ⟨f.px, f.py, e, f.distance, profileIdOf f⟩

/-- Create the dict bucket for a key if absent (lines 201-202), preserving
insertion order of keys. -/
def ensureKey : List (ℤ × List Sample) → ℤ → List (ℤ × List Sample)
  | [], pid => [(pid, [])]
  | (k, v) :: rest, pid =>
    if k = pid then (k, v) :: rest else (k, v) :: ensureKey rest pid

/-- Append a sample to the bucket of a key (line 211). -/
def appendToKey : List (ℤ × List Sample) → ℤ → Sample → List (ℤ × List Sample)
  | [], pid, s => [(pid, [s])]
  | (k, v) :: rest, pid, s =>
    if k = pid then (k, v ++ [s]) :: rest else (k, v) :: appendToKey rest pid s

/-- Processing of one feature by the grouping loop (lines 191-218): the
bucket for the feature's profile id is created first; the sample is appended
only when the elevation is present and not NODATA. -/
def groupStep (groups : List (ℤ × List Sample)) (f : Feature) :
    List (ℤ × List Sample) :=
  let pid := profileIdOf f
  let groups1 := ensureKey groups pid
  match validSample f with
  | none => groups1
  | some s => appendToKey groups1 pid s

/-- The grouping of all features into profiles: an insertion-ordered
association list modelling the Python dict `profiles`. -/
def groupProfiles (fs : List Feature) : List (ℤ × List Sample) :=
  fs.foldl groupStep []

/-- In-profile sort by the `distance` attribute (line 226).  Python's
`list.sort` with a key is a stable ascending sort, as is `List.mergeSort`. -/
def sortSamples (ps : List Sample) : List Sample :=
  ps.mergeSort (fun a b => a.distance ≤ b.distance)

/-- Analysis of one profile (lines 221-280): skip when fewer than
`min_consecutive + 1` samples; sort by along-transect distance; select the
anchor; classify the left side on the anchor-preceding samples in reversed
order and the right side on the anchor-following samples in original order;
left result first, then right. -/
def analyzeProfile (g : RiverGeom) (slopeTest : ℚ → Bool) (ht : ℚ) (mc : ℕ)
    (pid : ℤ) (ps : List Sample) : List BankPoint :=
  if ps.length < mc + 1 then []
  else
    let sorted := sortSamples ps
    let ridx := selectRiverIdx g sorted
    match sorted[ridx]? with
    | none => []
    | some riverPoint =>
      let re := riverPoint.elevation
      let rd := riverDistanceOf g riverPoint
      let leftB := findBedrockOnSide slopeTest ((sorted.take ridx).reverse)
        re ht mc "left" pid rd
      let rightB := findBedrockOnSide slopeTest (sorted.drop (ridx + 1))
        re ht mc "right" pid rd
      leftB.toList ++ rightB.toList

/-- Embedding of `_analyze_transects_for_bedrock` (lines 163-282): the combined river
geometry is `none` when the rivers layer has no feature (early return at
lines 185-186); otherwise every grouped profile is analyzed and the bank
points are collected in order. -/
def analyzeTransectsForBedrock (riverGeom : Option RiverGeom)
    (slopeTest : ℚ → Bool) (ht : ℚ) (mc : ℕ) (fs : List Feature) :
    List BankPoint :=
  match riverGeom with
  | none => []
  | some g =>
    ((groupProfiles fs).map
      (fun gp => analyzeProfile g slopeTest ht mc gp.1 gp.2)).flatten

/-- The result of `detect_bedrock_banks`: an explicitly empty layer, or a
layer built from the detected bank points. -/
inductive DetectResult where
  | emptyLayer : DetectResult
  | lineLayer : List BankPoint → DetectResult
deriving Repr, DecidableEq

/-- The output decision of `detect_bedrock_banks` (lines 116-122): when the
analysis produced no bank point, report and return the explicit empty layer;
otherwise build the line layer from the points. -/
def detectBedrockBanks (riverGeom : Option RiverGeom) (slopeTest : ℚ → Bool)
    (ht : ℚ) (mc : ℕ) (fs : List Feature) : DetectResult :=
  let bps := analyzeTransectsForBedrock riverGeom slopeTest ht mc fs
  if bps.isEmpty then DetectResult.emptyLayer else DetectResult.lineLayer bps

/-- C5: a profile with fewer than `min_consecutive + 1` samples (after
NODATA removal) is skipped silently: it contributes zero bank points, and
`analyzeProfile` is a total function, so no error is raised. -/
theorem C5_short_profile_skipped (g : RiverGeom) (slopeTest : ℚ → Bool)
    (ht : ℚ) (mc : ℕ) (pid : ℤ) (ps : List Sample)
    (h : ps.length < mc + 1) :
    analyzeProfile g slopeTest ht mc pid ps = [] := by
  unfold analyzeProfile
  rw [if_pos h]

/-- Witness for C5: a two-sample profile with `min_consecutive = 3`. -/
theorem C5_short_profile_skipped_witness :
    analyzeProfile ⟨true, fun _ => 0, fun _ => 0⟩ (fun _ => true) 3 3 1
      [⟨0, 0, 0, 0, 1⟩, ⟨0, 1, 9, 1, 1⟩] = [] :=
  C5_short_profile_skipped ⟨true, fun _ => 0, fun _ => 0⟩ (fun _ => true) 3 3 1
    [⟨0, 0, 0, 0, 1⟩, ⟨0, 1, 9, 1, 1⟩] (by norm_num)

/-- C8: when zero bank points are produced across all profiles, the
detector returns the explicit empty layer; `detectBedrockBanks` is total
into `DetectResult`, so the result is never null and no error is raised. -/
theorem C8_empty_result (riverGeom : Option RiverGeom) (slopeTest : ℚ → Bool)
    (ht : ℚ) (mc : ℕ) (fs : List Feature)
    (h : analyzeTransectsForBedrock riverGeom slopeTest ht mc fs = []) :
    detectBedrockBanks riverGeom slopeTest ht mc fs =
      DetectResult.emptyLayer := by
  unfold detectBedrockBanks
  rw [h]
  rfl

/-- Witness for C8: no river feature at all yields the empty layer. -/
theorem C8_empty_result_witness :
    detectBedrockBanks none (fun _ => true) 3 3 [] =
      DetectResult.emptyLayer :=
  C8_empty_result none (fun _ => true) 3 3 [] rfl

theorem lookup_cons_pair (q k : ℤ) (v : List Sample)
    (rest : List (ℤ × List Sample)) :
    List.lookup q ((k, v) :: rest) =
      if q = k then some v else List.lookup q rest := by
  simp [List.lookup]
  split
  · rename_i h
    rw [if_pos (by exact beq_iff_eq.mp h)]
  · rename_i h
    rw [if_neg (by exact fun hh => (by simp [hh] at h))]

theorem lookup_ensureKey (groups : List (ℤ × List Sample)) (pid q : ℤ) :
    List.lookup q (ensureKey groups pid) =
      if q = pid then some ((List.lookup pid groups).getD [])
      else List.lookup q groups := by
  induction groups with
  | nil =>
    by_cases hq : q = pid
    · subst hq
      simp [ensureKey, lookup_cons_pair]
    · simp [ensureKey, lookup_cons_pair, hq]
  | cons kv rest ih =>
    obtain ⟨k, v⟩ := kv
    by_cases hk : k = pid
    · subst hk
      by_cases hq : q = k
      · subst hq
        simp [ensureKey, lookup_cons_pair]
      · simp [ensureKey, lookup_cons_pair, hq]
    · by_cases hq : q = k
      · subst hq
        simp [ensureKey, lookup_cons_pair, hk]
      · have hpk : ¬ pid = k := fun h => hk h.symm
        simp [ensureKey, lookup_cons_pair, hk, hq, hpk, ih]

theorem lookup_appendToKey (groups : List (ℤ × List Sample)) (pid q : ℤ)
    (s : Sample) :
    List.lookup q (appendToKey groups pid s) =
      if q = pid then some (((List.lookup pid groups).getD []) ++ [s])
      else List.lookup q groups := by
  induction groups with
  | nil =>
    by_cases hq : q = pid
    · subst hq
      simp [appendToKey, lookup_cons_pair]
    · simp [appendToKey, lookup_cons_pair, hq]
  | cons kv rest ih =>
    obtain ⟨k, v⟩ := kv
    by_cases hk : k = pid
    · subst hk
      by_cases hq : q = k
      · subst hq
        simp [appendToKey, lookup_cons_pair]
      · simp [appendToKey, lookup_cons_pair, hq]
    · by_cases hq : q = k
      · subst hq
        simp [appendToKey, lookup_cons_pair, hk]
      · have hpk : ¬ pid = k := fun h => hk h.symm
        simp [appendToKey, lookup_cons_pair, hk, hq, hpk, ih]

theorem lookup_groupStep (acc : List (ℤ × List Sample)) (f : Feature)
    (done : List Feature)
    (hinv : ∀ pid, List.lookup pid acc =
      if pid ∈ done.map profileIdOf
      then some ((done.filter
        (fun g => profileIdOf g = pid)).filterMap validSample)
      else none)
    (q : ℤ) :
    List.lookup q (groupStep acc f) =
      if q ∈ (done ++ [f]).map profileIdOf
      then some (((done ++ [f]).filter
        (fun g => profileIdOf g = q)).filterMap validSample)
      else none := by
  simp only [groupStep]
  by_cases hq : q = profileIdOf f
  · subst hq
    have hmemq : profileIdOf f ∈ (done ++ [f]).map profileIdOf := by
      simp
    rw [if_pos hmemq]
    have hfilter : (done ++ [f]).filter
        (fun g => profileIdOf g = profileIdOf f) =
        done.filter (fun g => profileIdOf g = profileIdOf f) ++ [f] := by
      rw [List.filter_append]
      congr 1
      simp
    rw [hfilter, List.filterMap_append]
    have hacc : (List.lookup (profileIdOf f) acc).getD [] =
        (done.filter (fun g => profileIdOf g = profileIdOf f)).filterMap
          validSample := by
      by_cases hmem : profileIdOf f ∈ done.map profileIdOf
      · rw [hinv (profileIdOf f), if_pos hmem]
        rfl
      · rw [hinv (profileIdOf f), if_neg hmem]
        have hnil : done.filter (fun g => profileIdOf g = profileIdOf f) = [] := by
          rw [List.filter_eq_nil_iff]
          intro a ha
          simp only [decide_eq_true_eq]
          intro hcon
          exact hmem (List.mem_map.mpr ⟨a, ha, hcon⟩)
        rw [hnil]
        rfl
    cases hval : validSample f with
    | none =>
      rw [lookup_ensureKey, if_pos rfl, hacc]
      simp [hval]
    | some s =>
      rw [lookup_appendToKey, if_pos rfl, lookup_ensureKey, if_pos rfl, hacc]
      simp [hval]
  · have hfiltereq : (done ++ [f]).filter (fun g => profileIdOf g = q) =
        done.filter (fun g => profileIdOf g = q) := by
      rw [List.filter_append]
      have hsing : [f].filter (fun g => profileIdOf g = q) = [] := by
        rw [List.filter_eq_nil_iff]
        intro a ha
        simp only [List.mem_singleton] at ha
        subst ha
        simp only [decide_eq_true_eq]
        exact fun h => hq h.symm
      rw [hsing, List.append_nil]
    have hmem2 : (q ∈ (done ++ [f]).map profileIdOf) ↔
        q ∈ done.map profileIdOf := by
      simp only [List.map_append, List.mem_append, List.map_cons, List.map_nil,
        List.mem_singleton]
      constructor
      · rintro (h | h)
        · exact h
        · exact absurd h hq
      · intro h
        exact Or.inl h
    by_cases hmem : q ∈ done.map profileIdOf
    · rw [if_pos (hmem2.mpr hmem), hfiltereq]
      cases hval : validSample f with
      | none =>
        rw [lookup_ensureKey, if_neg hq, hinv q, if_pos hmem]
      | some s =>
        rw [lookup_appendToKey, if_neg hq, lookup_ensureKey, if_neg hq,
          hinv q, if_pos hmem]
    · rw [if_neg (fun h => hmem (hmem2.mp h))]
      cases hval : validSample f with
      | none =>
        rw [lookup_ensureKey, if_neg hq, hinv q, if_neg hmem]
      | some s =>
        rw [lookup_appendToKey, if_neg hq, lookup_ensureKey, if_neg hq,
          hinv q, if_neg hmem]

theorem groupProfiles_go (fs : List Feature) :
    ∀ (acc : List (ℤ × List Sample)) (done : List Feature),
      (∀ pid, List.lookup pid acc =
        if pid ∈ done.map profileIdOf
        then some ((done.filter
          (fun g => profileIdOf g = pid)).filterMap validSample)
        else none) →
      ∀ pid, List.lookup pid (fs.foldl groupStep acc) =
        if pid ∈ (done ++ fs).map profileIdOf
        then some (((done ++ fs).filter
          (fun g => profileIdOf g = pid)).filterMap validSample)
        else none := by
  induction fs with
  | nil =>
    intro acc done hinv pid
    simpa using hinv pid
  | cons f rest ih =>
    intro acc done hinv pid
    rw [List.foldl_cons]
    have hnext := ih (groupStep acc f) (done ++ [f])
      (fun q => lookup_groupStep acc f done hinv q) pid
    rw [List.append_assoc] at hnext
    simpa using hnext

/-- Full characterization of the grouping: a profile key exists exactly when
some feature's fallback-chain identifier equals it, and its content is the
ordered list of valid samples of the features with that identifier. -/
theorem groupProfiles_lookup (fs : List Feature) (pid : ℤ) :
    List.lookup pid (groupProfiles fs) =
      if pid ∈ fs.map profileIdOf
      then some ((fs.filter
        (fun g => profileIdOf g = pid)).filterMap validSample)
      else none := by
  have h := groupProfiles_go fs [] [] (fun q => by simp) pid
  simpa [groupProfiles] using h

/-- Content form of `groupProfiles_lookup` for a found key. -/
theorem lookup_groupProfiles_content (fs : List Feature) (pid : ℤ)
    (ps : List Sample)
    (h : List.lookup pid (groupProfiles fs) = some ps) :
    ps = (fs.filter (fun g => profileIdOf g = pid)).filterMap validSample := by
  rw [groupProfiles_lookup] at h
  by_cases hmem : pid ∈ fs.map profileIdOf
  · rw [if_pos hmem] at h
    injection h with h
    exact h.symm
  · rw [if_neg hmem] at h
    exact Option.noConfusion h

/-- C6: NODATA and missing elevations are excluded before any analysis:
each grouped profile consists exactly of the valid samples of its features in
input order, and every sample in a profile carries verbatim a present feature
elevation that is not the NODATA sentinel — no substitute numeric value is
ever introduced. -/
theorem C6_nodata_excluded (fs : List Feature) (pid : ℤ) (ps : List Sample)
    (h : List.lookup pid (groupProfiles fs) = some ps) :
    ps = (fs.filter (fun g => profileIdOf g = pid)).filterMap validSample ∧
    ∀ s ∈ ps, s.elevation ≠ NODATA ∧
      ∃ f ∈ fs, f.elevation = some s.elevation := by
  have hcontent := lookup_groupProfiles_content fs pid ps h
  refine ⟨hcontent, ?_⟩
  intro s hs
  rw [hcontent] at hs
  obtain ⟨f, hf, hfs⟩ := List.mem_filterMap.mp hs
  have hfin : f ∈ fs := (List.mem_filter.mp hf).1
  unfold validSample at hfs
  cases helev : f.elevation with
  | none =>
    rw [helev] at hfs
    exact Option.noConfusion hfs
  | some e =>
    rw [helev] at hfs
    split at hfs
    · exact Option.noConfusion hfs
    · rename_i heq
      injection heq with heq
      subst heq
      split at hfs
      · exact Option.noConfusion hfs
      · rename_i hnod
        injection hfs with hfs
        subst hfs
        exact ⟨hnod, f, hfin, helev⟩

/-- C9: grouping partitions the samples by the fallback-chain transect
identifier (explicit transect id, then segment id, then row id, then the
synthetic per-feature id, the first present value winning), a profile key
exists exactly when some feature carries it, each profile holds exactly the
valid samples of the features with that identifier in input order, and the
per-profile sort used before analysis orders ascending by along-transect
offset and permutes the profile. -/
theorem C9_grouping_and_sorting (fs : List Feature) (pid : ℤ) :
    ((List.lookup pid (groupProfiles fs)).isSome = true ↔
      pid ∈ fs.map profileIdOf) ∧
    (∀ ps, List.lookup pid (groupProfiles fs) = some ps →
      ps = (fs.filter (fun g => profileIdOf g = pid)).filterMap validSample ∧
      List.Pairwise (fun a b => a.distance ≤ b.distance) (sortSamples ps) ∧
      (sortSamples ps).Perm ps) ∧
    (∀ f : Feature,
      profileIdOf f =
        (((f.tr_id).orElse fun _ => f.tr_segment).orElse fun _ => f.fid).getD
          f.feature_id) := by
  refine ⟨?_, ?_, ?_⟩
  · rw [groupProfiles_lookup]
    by_cases hmem : pid ∈ fs.map profileIdOf
    · rw [if_pos hmem]
      simp [hmem]
    · rw [if_neg hmem]
      simp [hmem]
  · intro ps hps
    refine ⟨lookup_groupProfiles_content fs pid ps hps, ?_, ?_⟩
    · have hsorted := @List.sorted_mergeSort Sample
        (fun a b : Sample => decide (a.distance ≤ b.distance))
        (fun a b c hab hbc => by
          simp only [decide_eq_true_eq] at hab hbc ⊢
          exact le_trans hab hbc)
        (fun a b => by
          rcases le_total a.distance b.distance with hle | hle
          · simp [hle]
          · simp [hle])
        ps
      exact hsorted.imp (fun hab => by simpa using hab)
    · exact List.mergeSort_perm ps _
  · intro f
    obtain ⟨tid, tseg, tfid, fidint, px, py, elev, dist⟩ := f
    cases tid <;> cases tseg <;> cases tfid <;> rfl

/-- Witness for C6: three features of one transect — a valid elevation 10, a
NODATA elevation, a missing elevation; the profile holds only the valid
sample. -/
theorem C6_nodata_excluded_witness :
    ([(⟨0, 0, 10, 0, 1⟩ : Sample)] =
      (([⟨some 1, none, none, 100, 0, 0, some 10, 0⟩,
         ⟨some 1, none, none, 101, 0, 1, some (-9999), 1⟩,
         ⟨some 1, none, none, 102, 0, 2, none, 2⟩] : List Feature).filter
        (fun g => profileIdOf g = 1)).filterMap validSample) ∧
    ∀ s ∈ [(⟨0, 0, 10, 0, 1⟩ : Sample)], s.elevation ≠ NODATA ∧
      ∃ f ∈ ([⟨some 1, none, none, 100, 0, 0, some 10, 0⟩,
              ⟨some 1, none, none, 101, 0, 1, some (-9999), 1⟩,
              ⟨some 1, none, none, 102, 0, 2, none, 2⟩] : List Feature),
        f.elevation = some s.elevation :=
  C6_nodata_excluded
    [⟨some 1, none, none, 100, 0, 0, some 10, 0⟩,
     ⟨some 1, none, none, 101, 0, 1, some (-9999), 1⟩,
     ⟨some 1, none, none, 102, 0, 2, none, 2⟩] 1 [⟨0, 0, 10, 0, 1⟩]
    (by norm_num [groupProfiles, List.foldl, groupStep, ensureKey, appendToKey,
      validSample, profileIdOf, NODATA, List.lookup])

/-- Witness for C9: key existence for a two-feature input whose identifiers
come from different links of the fallback chain. -/
theorem C9_grouping_and_sorting_witness :
    (List.lookup 5 (groupProfiles
      [⟨none, some 5, none, 100, 0, 0, some 10, 0⟩,
       ⟨none, none, none, 101, 0, 1, some 11, 1⟩])).isSome = true ↔
      (5 : ℤ) ∈ ([⟨none, some 5, none, 100, 0, 0, some 10, 0⟩,
        ⟨none, none, none, 101, 0, 1, some 11, 1⟩] : List Feature).map
        profileIdOf :=
  (C9_grouping_and_sorting
    [⟨none, some 5, none, 100, 0, 0, some 10, 0⟩,
     ⟨none, none, none, 101, 0, 1, some 11, 1⟩] 5).1

theorem findBedrockOnSide_of_idx_none (slopeTest : ℚ → Bool)
    (points : List Sample) (re ht : ℚ) (mc : ℕ) (side : String) (pid : ℤ)
    (rd : ℚ)
    (h : findBankIdx slopeTest (points.map Sample.elevation) re ht mc = none) :
    findBedrockOnSide slopeTest points re ht mc side pid rd = none := by
  unfold findBedrockOnSide
  rw [h]

theorem findBedrockOnSide_of_idx_some (slopeTest : ℚ → Bool)
    (points : List Sample) (re ht : ℚ) (mc : ℕ) (side : String) (pid : ℤ)
    (rd : ℚ) (i : ℕ) (hi : i < points.length)
    (hidx : findBankIdx slopeTest (points.map Sample.elevation) re ht mc =
      some i) :
    findBedrockOnSide slopeTest points re ht mc side pid rd =
      some ⟨(points.get ⟨i, hi⟩).px, (points.get ⟨i, hi⟩).py,
        (points.get ⟨i, hi⟩).elevation, (points.get ⟨i, hi⟩).elevation - re,
        side, pid, rd⟩ := by
  unfold findBedrockOnSide
  rw [hidx]
  show (match points[i]? with
      | none => none
      | some s =>
        some (⟨s.px, s.py, s.elevation, s.elevation - re,
          side, pid, rd⟩ : BankPoint)) = _
  rw [List.getElem?_eq_getElem hi]
  simp [List.get_eq_getElem]

theorem getElem_idx_congr (l : List Sample) (i j : ℕ) (hi : i < l.length)
    (hj : j < l.length) (hij : i = j) : l[i] = l[j] := by
  subst hij
  rfl

/-- For a profile elevation-symmetric about index `a`, the left side list
(elements before `a`, reversed) and the right side list (elements after `a`)
have equal elevation sequences. -/
theorem symmetric_sides_map_eq (ps : List Sample) (a : ℕ)
    (hlen : ps.length = 2 * a + 1)
    (hsym : ∀ k (hk : k < a),
      (ps.get ⟨a - (k + 1), by omega⟩).elevation =
        (ps.get ⟨a + (k + 1), by omega⟩).elevation) :
    ((ps.take a).reverse).map Sample.elevation =
      (ps.drop (a + 1)).map Sample.elevation := by
  apply List.ext_getElem
  · simp only [List.length_map, List.length_reverse, List.length_take,
      List.length_drop]
    omega
  · intro n h1 h2
    have hn : n < a := by
      simp only [List.length_map, List.length_reverse, List.length_take] at h1
      omega
    have hL : (((ps.take a).reverse).map Sample.elevation)[n] =
        (ps.get ⟨a - (n + 1), by omega⟩).elevation := by
      have hb1 : (ps.take a).length - 1 - n < ps.length := by
        simp only [List.length_take]
        omega
      have hb2 : a - (n + 1) < ps.length := by omega
      rw [List.getElem_map, List.getElem_reverse, List.getElem_take]
      show ps[(ps.take a).length - 1 - n].elevation =
        ps[a - (n + 1)].elevation
      exact congrArg Sample.elevation (getElem_idx_congr ps _ _
        (by simp only [List.length_take]; omega) (by omega)
        (by simp only [List.length_take]; omega))
    have hR : (((ps.drop (a + 1)).map Sample.elevation))[n] =
        (ps.get ⟨a + (n + 1), by omega⟩).elevation := by
      have hb3 : a + 1 + n < ps.length := by omega
      have hb4 : a + (n + 1) < ps.length := by omega
      rw [List.getElem_map, List.getElem_drop]
      show ps[a + 1 + n].elevation = ps[a + (n + 1)].elevation
      exact congrArg Sample.elevation (getElem_idx_congr ps _ _
        (by omega) (by omega) (by omega))
    rw [hL, hR]
    exact hsym n hn

/-- C7: on a profile whose elevations are mirror-symmetric about the
anchor index `a` (equal side lengths, pairwise equal elevations), the left
scan (anchor-preceding samples reversed) and the right scan (anchor-following
samples) either both find no bank, or both find it at the same outward scan
index — mirrored profile positions — with identical height-above-anchor and
elevation, the same transect id and along-river distance, differing in the
side tag. -/
theorem C7_symmetric_sides (slopeTest : ℚ → Bool) (ps : List Sample)
    (ht : ℚ) (mc : ℕ) (hmc : 1 ≤ mc) (a : ℕ) (pid : ℤ) (rd : ℚ)
    (hlen : ps.length = 2 * a + 1)
    (hsym : ∀ k (hk : k < a),
      (ps.get ⟨a - (k + 1), by omega⟩).elevation =
        (ps.get ⟨a + (k + 1), by omega⟩).elevation) :
    (findBedrockOnSide slopeTest ((ps.take a).reverse)
        (ps.get ⟨a, by omega⟩).elevation ht mc "left" pid rd = none ∧
      findBedrockOnSide slopeTest (ps.drop (a + 1))
        (ps.get ⟨a, by omega⟩).elevation ht mc "right" pid rd = none) ∨
    (∃ i bl br,
      findBankIdx slopeTest (((ps.take a).reverse).map Sample.elevation)
        (ps.get ⟨a, by omega⟩).elevation ht mc = some i ∧
      findBankIdx slopeTest ((ps.drop (a + 1)).map Sample.elevation)
        (ps.get ⟨a, by omega⟩).elevation ht mc = some i ∧
      findBedrockOnSide slopeTest ((ps.take a).reverse)
        (ps.get ⟨a, by omega⟩).elevation ht mc "left" pid rd = some bl ∧
      findBedrockOnSide slopeTest (ps.drop (a + 1))
        (ps.get ⟨a, by omega⟩).elevation ht mc "right" pid rd = some br ∧
      bl.height_diff = br.height_diff ∧ bl.elevation = br.elevation ∧
      bl.side = "left" ∧ br.side = "right" ∧
      bl.profile_id = br.profile_id ∧
      bl.distance_along = br.distance_along) := by
  have hmap := symmetric_sides_map_eq ps a hlen hsym
  cases hidx : findBankIdx slopeTest
      (((ps.take a).reverse).map Sample.elevation)
      (ps.get ⟨a, by omega⟩).elevation ht mc with
  | none =>
    left
    refine ⟨findBedrockOnSide_of_idx_none _ _ _ _ _ _ _ _ hidx, ?_⟩
    apply findBedrockOnSide_of_idx_none
    rw [← hmap]
    exact hidx
  | some i =>
    right
    have hidxR : findBankIdx slopeTest
        ((ps.drop (a + 1)).map Sample.elevation)
        (ps.get ⟨a, by omega⟩).elevation ht mc = some i := by
      rw [← hmap]
      exact hidx
    have hrange := ((findBankIdx_eq_some_iff _ _ _ _ _ _).mp hidx).1
    have hiL : i < ((ps.take a).reverse).length := by
      simp only [List.length_map, List.length_reverse, List.length_take]
        at hrange ⊢
      omega
    have hiR : i < (ps.drop (a + 1)).length := by
      simp only [List.length_drop]
      simp only [List.length_reverse, List.length_take] at hiL
      omega
    have helev : (((ps.take a).reverse).get ⟨i, hiL⟩).elevation =
        ((ps.drop (a + 1)).get ⟨i, hiR⟩).elevation := by
      have h1 : (((ps.take a).reverse).map Sample.elevation).getD i 0 =
          ((ps.drop (a + 1)).map Sample.elevation).getD i 0 := by
        rw [hmap]
      rw [getD_map_elevation _ i hiL, getD_map_elevation _ i hiR] at h1
      exact h1
    refine ⟨i, _, _, rfl, hidxR,
      findBedrockOnSide_of_idx_some _ _ _ _ _ _ _ _ i hiL hidx,
      findBedrockOnSide_of_idx_some _ _ _ _ _ _ _ _ i hiR hidxR,
      ?_, ?_, rfl, rfl, rfl, rfl⟩
    · show (((ps.take a).reverse).get ⟨i, hiL⟩).elevation - _ =
        ((ps.drop (a + 1)).get ⟨i, hiR⟩).elevation - _
      rw [helev]
    · exact helev

/-- Witness for C7: the symmetric profile with elevations [5, 0, 5] about
anchor index 1, height threshold 3, `min_consecutive = 1`: both sides find
the bank at outward index 0 with height-above-anchor 5. -/
theorem C7_symmetric_sides_witness :
    (findBedrockOnSide (fun _ => true)
        (([⟨0, 0, 5, 0, 1⟩, ⟨0, 1, 0, 1, 1⟩, ⟨0, 2, 5, 2, 1⟩] :
          List Sample).take 1).reverse
        (([⟨0, 0, 5, 0, 1⟩, ⟨0, 1, 0, 1, 1⟩, ⟨0, 2, 5, 2, 1⟩] :
          List Sample).get ⟨1, by norm_num⟩).elevation 3 1 "left" 1 0 =
        none ∧
      findBedrockOnSide (fun _ => true)
        (([⟨0, 0, 5, 0, 1⟩, ⟨0, 1, 0, 1, 1⟩, ⟨0, 2, 5, 2, 1⟩] :
          List Sample).drop (1 + 1))
        (([⟨0, 0, 5, 0, 1⟩, ⟨0, 1, 0, 1, 1⟩, ⟨0, 2, 5, 2, 1⟩] :
          List Sample).get ⟨1, by norm_num⟩).elevation 3 1 "right" 1 0 =
        none) ∨
    (∃ i bl br,
      findBankIdx (fun _ => true)
        ((([⟨0, 0, 5, 0, 1⟩, ⟨0, 1, 0, 1, 1⟩, ⟨0, 2, 5, 2, 1⟩] :
          List Sample).take 1).reverse.map Sample.elevation)
        (([⟨0, 0, 5, 0, 1⟩, ⟨0, 1, 0, 1, 1⟩, ⟨0, 2, 5, 2, 1⟩] :
          List Sample).get ⟨1, by norm_num⟩).elevation 3 1 = some i ∧
      findBankIdx (fun _ => true)
        ((([⟨0, 0, 5, 0, 1⟩, ⟨0, 1, 0, 1, 1⟩, ⟨0, 2, 5, 2, 1⟩] :
          List Sample).drop (1 + 1)).map Sample.elevation)
        (([⟨0, 0, 5, 0, 1⟩, ⟨0, 1, 0, 1, 1⟩, ⟨0, 2, 5, 2, 1⟩] :
          List Sample).get ⟨1, by norm_num⟩).elevation 3 1 = some i ∧
      findBedrockOnSide (fun _ => true)
        (([⟨0, 0, 5, 0, 1⟩, ⟨0, 1, 0, 1, 1⟩, ⟨0, 2, 5, 2, 1⟩] :
          List Sample).take 1).reverse
        (([⟨0, 0, 5, 0, 1⟩, ⟨0, 1, 0, 1, 1⟩, ⟨0, 2, 5, 2, 1⟩] :
          List Sample).get ⟨1, by norm_num⟩).elevation 3 1 "left" 1 0 =
        some bl ∧
      findBedrockOnSide (fun _ => true)
        (([⟨0, 0, 5, 0, 1⟩, ⟨0, 1, 0, 1, 1⟩, ⟨0, 2, 5, 2, 1⟩] :
          List Sample).drop (1 + 1))
        (([⟨0, 0, 5, 0, 1⟩, ⟨0, 1, 0, 1, 1⟩, ⟨0, 2, 5, 2, 1⟩] :
          List Sample).get ⟨1, by norm_num⟩).elevation 3 1 "right" 1 0 =
        some br ∧
      bl.height_diff = br.height_diff ∧ bl.elevation = br.elevation ∧
      bl.side = "left" ∧ br.side = "right" ∧
      bl.profile_id = br.profile_id ∧
      bl.distance_along = br.distance_along) :=
  C7_symmetric_sides (fun _ => true)
    [⟨0, 0, 5, 0, 1⟩, ⟨0, 1, 0, 1, 1⟩, ⟨0, 2, 5, 2, 1⟩] 3 1 le_rfl 1 1 0
    (by norm_num)
    (by
      intro k hk
      interval_cases k
      rfl)

end BedrockBanks
